import Mathlib

/-!
Verification development for the VoiceTOVideo browser recorder.

The JavaScript source (src/main.js, with a near-duplicate variant in
src/unnamed/part_000) is shallowly embedded below: strings are lists of
characters, byte buffers are lists of natural numbers, and the callback-driven
session coordinator is an explicit step function over an application-state
record. Canvas text measurement is abstracted as an additive width function
over characters.
-/

/-- Character strings of the JavaScript source, modelled as lists of characters. -/
abbrev Str := List Char

/-- Audio and video byte buffers (JavaScript Blob contents), modelled as byte lists. -/
abbrev Blob := List Nat

/-- The JavaScript whitespace class used by String.prototype.trim and by the
regular-expression class backslash-s: tab through carriage return, space,
no-break space, and the Unicode space separators. -/
def jsWs (c : Char) : Bool :=
  decide (c.toNat = 0x20 ∨ (0x9 ≤ c.toNat ∧ c.toNat ≤ 0xd) ∨ c.toNat = 0xa0 ∨
    c.toNat = 0x1680 ∨ (0x2000 ≤ c.toNat ∧ c.toNat ≤ 0x200a) ∨ c.toNat = 0x2028 ∨
    c.toNat = 0x2029 ∨ c.toNat = 0x202f ∨ c.toNat = 0x205f ∨ c.toNat = 0x3000 ∨
    c.toNat = 0xfeff)

/-- JavaScript String.prototype.trim: drop whitespace from both ends. -/
def jsTrim (s : Str) : Str :=
  ((s.dropWhile jsWs).reverse.dropWhile jsWs).reverse

/-- The characters removed by getSanitizedFilename in src/main.js line 99:
slash, backslash, question mark, percent, asterisk, colon, vertical bar,
double quote, less than, greater than (written as code points). -/
def isForbiddenFilenameChar (c : Char) : Bool :=
  decide (c.toNat = 0x2f ∨ c.toNat = 0x5c ∨ c.toNat = 0x3f ∨ c.toNat = 0x25 ∨
    c.toNat = 0x2a ∨ c.toNat = 0x3a ∨ c.toNat = 0x7c ∨ c.toNat = 0x22 ∨
    c.toNat = 0x3c ∨ c.toNat = 0x3e)

/-- Embedding of the replace call that deletes every forbidden filename character. -/
def removeForbidden (s : Str) : Str :=
  s.filter (fun c => !(isForbiddenFilenameChar c))

/-- Embedding of the replace call that rewrites every maximal whitespace run to a
single underscore (the global regex backslash-s-plus in src/main.js line 99). -/
def collapseWs : Str → Str
  | [] => []
  | a :: rest =>
    if jsWs a then
      match rest with
      | [] => ['_']
      | b :: cs => if jsWs b then collapseWs (b :: cs) else '_' :: b :: collapseWs cs
    else a :: collapseWs rest

/-- Embedding of the replace call removing a final dot extension
(regex: a literal dot, then one or more characters that are neither slash nor
dot, anchored at the end; src/main.js line 97). -/
def stripLastExt (s : Str) : Str :=
  match s.reverse.dropWhile (fun c => !(c == '.' || c == '/')) with
  | [] => s
  | d :: before =>
    if s.reverse.takeWhile (fun c => !(c == '.' || c == '/')) ≠ [] ∧ d = '.' then
      before.reverse
    else s

/-- Embedding of getSanitizedFilename (src/main.js lines 90 to 103). The input
is the optional text field value; an absent element or a value that trims to
the empty string falls back to the default base name. The chosen base is
stripped of a final extension, cleansed of forbidden characters, has its
whitespace runs collapsed to underscores, and the extension is appended. -/
def getSanitizedFilename (input : Option Str) (defaultBaseName : Str) (extension : Str) : Str :=
  let filename :=
    match input with
    | some v => if jsTrim v ≠ [] then jsTrim v else defaultBaseName
    | none => defaultBaseName
  collapseWs (removeForbidden (stripLastExt filename)) ++ extension

/-- Canvas text measurement, abstracted as an additive width function: the
measured width of a string is the sum of the widths of its characters. -/
def measureW (cw : Char → Nat) (s : Str) : Nat :=
  (s.map cw).sum

/-- JavaScript String.prototype.split with a one-character separator:
splitChar c s is the list of separator-free pieces, keeping empty pieces. -/
def splitChar (c : Char) : Str → List Str
  | [] => [[]]
  | a :: as =>
    if a = c then [] :: splitChar c as
    else
      match splitChar c as with
      | [] => [[a]]
      | h :: t => (a :: h) :: t

/-- Concatenation of a chunk of words in which every word is followed by one
space: the shape of the accumulating line while later words remain. -/
def trailJoin : List Str → Str
  | [] => []
  | w :: ws => w ++ ' ' :: trailJoin ws

/-- Concatenation of a chunk of words separated by single spaces with no
trailing space: the shape of the accumulating line after the final word. -/
def finJoin : List Str → Str
  | [] => []
  | [w] => w
  | w :: b :: t => w ++ ' ' :: finJoin (b :: t)

/-- The separator appended after a word: a space unless the word is the last
one of the whole text (src/main.js line 759). -/
def sepFor (ws : List Str) : Str :=
  if ws.isEmpty then [] else [' ']

/-- The line-breaking loop of drawWrappedText (src/main.js lines 757 to 776 and
src/unnamed/part_000 lines 573 to 587): greedily extend the current line; when
the measured test line exceeds the maximum width and the word is not the first
one, push the trimmed line and restart from the current word; finally push the
remaining line unless it trims to nothing. -/
def wrapWordsAux (cw : Char → Nat) (maxW : Nat) : List Str → Bool → Str → List Str
  | [], _, line => if jsTrim line = [] then [] else [jsTrim line]
  | w :: ws, notFirst, line =>
    let test := line ++ w ++ sepFor ws
    if notFirst = true ∧ maxW < measureW cw test then
      jsTrim line :: wrapWordsAux cw maxW ws true (w ++ sepFor ws)
    else
      wrapWordsAux cw maxW ws true test

/-- The list of lines computed by drawWrappedText for a transcript text: the
text is split on single spaces and wrapped against the maximum content width. -/
def drawWrappedText (cw : Char → Nat) (maxW : Nat) (text : Str) : List Str :=
  wrapWordsAux cw maxW (splitChar ' ' text) false []

/-- The fixed maximum content width of the export canvas in pixels:
canvas width 720 minus ten percent padding on each side (src/main.js line 743). -/
def canvasMaxTextWidth : Nat := 720 - 2 * 72

/-- Minimum size in bytes for a recorded audio artifact (src/main.js line 72). -/
def MIN_RECORDING_BLOB_SIZE : Nat := 100

/-- The argument values passed to updateButtonStates in src/main.js. -/
inductive UIState
  | idle
  | recording
  | recorded
  | processing
  deriving DecidableEq, Repr

/-- The live host-owned handles that resetApp releases (src/main.js lines
219 to 311): the audio MediaRecorder, the speech-recognition engine, the
microphone stream, the export playback-graph nodes and context, and the
canvas animation loop. -/
inductive SessionHandle
  | mediaRecorder
  | recognition
  | micStream
  | bufferSource
  | destinationNode
  | audioCtx
  | animationFrame
  deriving DecidableEq, Repr

/-- User-visible status notifications relevant to the claims. -/
inductive Notice
  | noAudioData
  | tooShort
  | appReset
  | speechWarning
  deriving DecidableEq, Repr

/-- The module-scope session variables of src/main.js that the claims are
about. Handle fields are liveness flags: mediaRecStoppable means the audio
MediaRecorder exists and is not inactive; recActive means the recognition
engine is listening; ctxOpen means the export AudioContext is not closed;
exportActive means the export video encoder is running (between the start of
recording the combined stream and its stop or error event). -/
structure AppState where
  isRecording : Bool
  isProcessingStop : Bool
  audioChunks : List Blob
  audioBlob : Option Blob
  finalTranscript : Str
  subtitleText : Str
  streamLive : Bool
  recActive : Bool
  mediaRecStoppable : Bool
  wavesurfer : Bool
  wsReady : Bool
  bufLive : Bool
  destLive : Bool
  ctxOpen : Bool
  animLive : Bool
  exportActive : Bool
  ui : UIState
  deriving DecidableEq, Repr

/-- The handles currently live in a state, in the order resetApp releases them. -/
def liveHandles (s : AppState) : List SessionHandle :=
  (if s.mediaRecStoppable then [SessionHandle.mediaRecorder] else []) ++
  (if s.recActive then [SessionHandle.recognition] else []) ++
  (if s.streamLive then [SessionHandle.micStream] else []) ++
  (if s.bufLive then [SessionHandle.bufferSource] else []) ++
  (if s.destLive then [SessionHandle.destinationNode] else []) ++
  (if s.ctxOpen then [SessionHandle.audioCtx] else []) ++
  (if s.animLive then [SessionHandle.animationFrame] else [])

/-- Embedding of resetApp (src/main.js lines 219 to 311). Every live handle is
released under a null or state guard and its reference cleared; the fragment
buffer is emptied; unless audio is preserved, the transcript and the audio
artifact are cleared; the final updateButtonStates call receives recorded
exactly when audio was preserved and an artifact exists, else idle. The second
component lists the release actions issued, in source order. -/
def resetApp (preserveAudio : Bool) (s : AppState) : AppState × List SessionHandle :=
  ({ isRecording := false
     isProcessingStop := false
     audioChunks := []
     audioBlob := if preserveAudio then s.audioBlob else none
     finalTranscript := if preserveAudio then s.finalTranscript else []
     subtitleText := if preserveAudio then s.subtitleText else []
     streamLive := false
     recActive := false
     mediaRecStoppable := false
     wavesurfer := s.wavesurfer
     wsReady := preserveAudio && s.audioBlob.isSome && s.wsReady
     bufLive := false
     destLive := false
     ctxOpen := false
     animLive := false
     exportActive := s.exportActive
     ui := if preserveAudio ∧ s.audioBlob.isSome then UIState.recorded else UIState.idle },
   liveHandles s)

/-- Embedding of mediaRecorder.onstop (src/main.js lines 411 to 506). The
recorder is now inactive and the microphone stream is stopped. With no
captured fragments the app fully resets with a no-data warning. Otherwise the
fragments are concatenated in arrival order into the artifact and the buffer
is cleared; an artifact below the minimum size triggers a full reset with a
too-short notice; else the waveform collaborator is asked to load the artifact
(processing until its ready event) or, without one, the state is recorded
immediately. -/
def onstopCore (s : AppState) : AppState × List Notice :=
  let s1 : AppState :=
    { s with isRecording := false, isProcessingStop := false,
             streamLive := false, mediaRecStoppable := false }
  if s1.audioChunks = [] then
    ((resetApp false s1).1, [Notice.noAudioData, Notice.appReset])
  else
    let blob := s1.audioChunks.flatten
    let s2 : AppState := { s1 with audioBlob := some blob, audioChunks := [] }
    if blob.length < MIN_RECORDING_BLOB_SIZE then
      ((resetApp false s2).1, [Notice.tooShort, Notice.appReset])
    else if s2.wavesurfer then ({ s2 with ui := UIState.processing }, [])
    else ({ s2 with ui := UIState.recorded }, [])

/-- The session state right after page load: initializeWaveSurfer (which may or
may not produce an instance) followed by resetApp on an empty state. -/
def initState (ws : Bool) : AppState :=
  { isRecording := false, isProcessingStop := false, audioChunks := [], audioBlob := none,
    finalTranscript := [], subtitleText := [], streamLive := false, recActive := false,
    mediaRecStoppable := false, wavesurfer := ws, wsReady := false, bufLive := false,
    destLive := false, ctxOpen := false, animLive := false, exportActive := false,
    ui := UIState.idle }

/-- The failure reasons of the export (video-generation) flow. -/
inductive VideoGenError
  | NoAudio
  | EmptyTranscript
  | UnsupportedEnvironment
  | CaptureUnavailable
  | AudioDecodeFailed
  deriving DecidableEq, Repr

/-- The resources opened by generateVideo before its encoder starts. -/
inductive VideoHandle
  | animationLoop
  | canvasCapture
  | audioCtxV
  | destNodeV
  | bufferSrcV
  deriving DecidableEq, Repr

/-- The environment facts generateVideo depends on: feature availability and
the outcomes of the fallible canvas-capture and audio-decode steps. -/
structure ExportEnv where
  hasCanvasCaptureStream : Bool
  hasAudioContext : Bool
  captureOk : Bool
  decodeOk : Bool
  deriving DecidableEq, Repr

/-- Outcome of the setup phase of generateVideo: the reported error if any,
the handles opened and the handles released during the phase, the argument of
the updateButtonStates call made on exit (none when no call is made), and
whether the flow proceeds to encoding. -/
structure VideoSetupResult where
  err : Option VideoGenError
  opened : List VideoHandle
  released : List VideoHandle
  uiAfter : Option UIState
  proceed : Bool
  deriving DecidableEq, Repr

/-- Embedding of the setup phase of generateVideo (src/main.js lines 695 to 895
and src/unnamed/part_000 lines 514 to 709). The three preconditions are checked
before any resource is opened and their failure makes no updateButtonStates
call. On capture failure the animation loop is cancelled. On decode failure
the animation loop is cancelled, the capture stream tracks are stopped, the
destination node is disconnected and the audio context closed (the buffer
source is still null there); the exit call is updateButtonStates recorded. -/
def generateVideoSetup (env : ExportEnv) (blob : Option Blob) (transcriptText : Str) :
    VideoSetupResult :=
  if blob.isNone then
    ⟨some VideoGenError.NoAudio, [], [], none, false⟩
  else if jsTrim transcriptText = [] then
    ⟨some VideoGenError.EmptyTranscript, [], [], none, false⟩
  else if !(env.hasCanvasCaptureStream && env.hasAudioContext) then
    ⟨some VideoGenError.UnsupportedEnvironment, [], [], none, false⟩
  else if !env.captureOk then
    ⟨some VideoGenError.CaptureUnavailable, [VideoHandle.animationLoop],
      [VideoHandle.animationLoop], some UIState.recorded, false⟩
  else if !env.decodeOk then
    ⟨some VideoGenError.AudioDecodeFailed,
      [VideoHandle.animationLoop, VideoHandle.canvasCapture,
        VideoHandle.audioCtxV, VideoHandle.destNodeV],
      [VideoHandle.animationLoop, VideoHandle.canvasCapture,
        VideoHandle.destNodeV, VideoHandle.audioCtxV],
      some UIState.recorded, false⟩
  else
    ⟨none,
      [VideoHandle.animationLoop, VideoHandle.canvasCapture,
        VideoHandle.audioCtxV, VideoHandle.destNodeV, VideoHandle.bufferSrcV],
      [], some UIState.processing, true⟩

/-- The effect of invoking generateVideo on the session state: precondition
failures change nothing; mid-setup failures end with updateButtonStates
recorded; a successful setup leaves the export encoder running with the
playback graph and animation loop live. -/
def exportStartHandler (env : ExportEnv) (s : AppState) : AppState :=
  let r := generateVideoSetup env s.audioBlob s.subtitleText
  match r.uiAfter with
  | none => s
  | some u =>
    if r.proceed then
      { s with ui := u, exportActive := true, animLive := true,
               bufLive := true, destLive := true, ctxOpen := true }
    else { s with ui := u }

/-- The user and collaborator events driving the session coordinator.
startOk is a successful startRecording (microphone granted, format found,
encoder started; the flag says whether speech recognition is available);
frag is an ondataavailable delivery from the active recorder; stopReq is the
stop button; captureStop is mediaRecorder.onstop; wsReadyEv and wsErrorEv are
the waveform collaborator events; exportStart invokes generateVideo under the
given environment; exportDone is the terminal event of the export encoder;
resetReq and clearTranscript are the two reset buttons (with their confirm
dialogs accepted); editTranscript is a user edit of the transcript box. -/
inductive Ev
  | startOk (sr : Bool)
  | frag (d : Blob)
  | stopReq
  | captureStop
  | wsReadyEv
  | wsErrorEv
  | exportStart (env : ExportEnv)
  | exportDone
  | resetReq
  | clearTranscript
  | editTranscript (t : Str)

/-- One step of the session coordinator. Each branch carries the guards of the
corresponding source handler: startRecording returns early while recording or
stopping, then fully resets; fragments are delivered only while the recorder
session is live and only non-empty ones are kept; stopRecording returns early
unless recording, stops recognition, and requests encoder finalize (or resets
when the recorder is not stoppable); the reset and clear buttons are disabled
while recording or processing and when there is nothing to clear. -/
def stepEv (s : AppState) (e : Ev) : AppState :=
  match e with
  | Ev.startOk sr =>
    if s.isRecording = true ∨ s.isProcessingStop = true then s
    else
      let s1 := (resetApp false s).1
      { s1 with isRecording := true, streamLive := true, mediaRecStoppable := true,
                recActive := sr, ui := UIState.recording }
  | Ev.frag d =>
    if s.isRecording = true ∨ s.isProcessingStop = true then
      if 0 < d.length then { s with audioChunks := s.audioChunks ++ [d] } else s
    else s
  | Ev.stopReq =>
    if s.isRecording = false ∨ s.isProcessingStop = true then s
    else
      let s1 := { s with isProcessingStop := true, ui := UIState.processing,
                         recActive := false }
      if s1.mediaRecStoppable then { s1 with mediaRecStoppable := false }
      else (resetApp false s1).1
  | Ev.captureStop => (onstopCore s).1
  | Ev.wsReadyEv =>
    if s.wavesurfer then { s with wsReady := true, ui := UIState.recorded } else s
  | Ev.wsErrorEv =>
    if s.wavesurfer then (resetApp true { s with wavesurfer := false, wsReady := false }).1
    else s
  | Ev.exportStart env => exportStartHandler env s
  | Ev.exportDone =>
    if s.exportActive then
      { s with exportActive := false, animLive := false, bufLive := false,
               destLive := false, ctxOpen := false, ui := UIState.recorded }
    else s
  | Ev.resetReq =>
    if (s.ui = UIState.idle ∧ s.audioBlob = none ∧ jsTrim s.subtitleText = []) ∨
        s.ui = UIState.processing ∨ s.ui = UIState.recording then s
    else (resetApp false s).1
  | Ev.clearTranscript =>
    if (s.ui = UIState.idle ∧ s.audioBlob = none ∧ jsTrim s.subtitleText = []) ∨
        s.ui = UIState.processing ∨ s.ui = UIState.recording then s
    else
      { s with subtitleText := [], finalTranscript := [],
               ui := if s.audioBlob.isSome then UIState.recorded else UIState.idle }
  | Ev.editTranscript t =>
    if s.ui = UIState.recording ∨ s.ui = UIState.processing then s
    else { s with subtitleText := t }

/-- Run the coordinator from page load over a sequence of events. -/
def runEvents (ws : Bool) (evs : List Ev) : AppState :=
  evs.foldl stepEv (initState ws)

/-- The abstract session phases of the specification. -/
inductive Phase
  | idle
  | recording
  | stopping
  | recorded
  | exporting
  deriving DecidableEq, Repr

/-- The abstraction from the concrete state to the specification phase:
recording while the recording flag is set, stopping while the stop sequence is
being processed, exporting while the export encoder runs, recorded when an
artifact is held, idle otherwise. -/
def phaseOf (s : AppState) : Phase :=
  if s.isRecording then Phase.recording
  else if s.isProcessingStop then Phase.stopping
  else if s.exportActive then Phase.exporting
  else if s.audioBlob.isSome then Phase.recorded
  else Phase.idle

/-- The structural invariant of the coordinator: an artifact is held only
outside the recording and stopping windows, and captured fragments exist only
inside them. -/
def SessionInv (s : AppState) : Prop :=
  (s.audioBlob.isSome = true → s.isRecording = false ∧ s.isProcessingStop = false) ∧
  (s.audioChunks ≠ [] → s.isRecording = true ∨ s.isProcessingStop = true)

/-- The state of the export video encoder. -/
inductive VideoRecState
  | recording
  | inactive
  deriving DecidableEq, Repr

/-- The shared body of the two stop triggers of the export flow (the onended
handler at src/main.js lines 865 to 875 and the timeout handler at lines 1035
to 1043): request encoder finalize only if the encoder is still recording.
The boolean reports whether a stop request was issued. -/
def videoStopTrigger (st : VideoRecState) : VideoRecState × Bool :=
  match st with
  | VideoRecState.recording => (VideoRecState.inactive, true)
  | VideoRecState.inactive => (VideoRecState.inactive, false)

/-- The two independent stop-trigger sources racing during an export run. -/
inductive StopTriggerSrc
  | playbackEnded
  | timeoutFired
  deriving DecidableEq, Repr

/-- Process stop triggers in firing order from a recording encoder, counting
the finalize requests issued. -/
def runStopTriggers (trs : List StopTriggerSrc) : VideoRecState × Nat :=
  trs.foldl
    (fun p _ =>
      let q := videoStopTrigger p.1
      (q.1, p.2 + (if q.2 then 1 else 0)))
    (VideoRecState.recording, 0)

/-- The safety timeout of the export flow (src/main.js line 1031): decoded
audio duration in seconds times 1000 plus a fixed 500 millisecond margin. -/
def stopTimeoutMs (audioDurationSec : Nat) : Nat :=
  audioDurationSec * 1000 + 500

/-- The encoder state once every trigger that fired no later than the safety
timeout has been processed; the environment guarantees the timeout trigger
itself fires exactly at the deadline. -/
def stateAtDeadline (d : Nat) (evs : List (Nat × StopTriggerSrc)) : VideoRecState :=
  (runStopTriggers ((evs.filter (fun e => decide (e.1 ≤ stopTimeoutMs d))).map Prod.snd)).1

/-- The speech-recognition error codes swallowed by recognition.onerror
(src/main.js line 574): no-speech, aborted, audio-capture (the specification
calls the last one no-audio). -/
def transientSpeechErrors : List Str :=
  [['n', 'o', '-', 's', 'p', 'e', 'e', 'c', 'h'],
   ['a', 'b', 'o', 'r', 't', 'e', 'd'],
   ['a', 'u', 'd', 'i', 'o', '-', 'c', 'a', 'p', 't', 'u', 'r', 'e']]

/-- Embedding of recognition.onerror (src/main.js lines 570 to 582): the
session state is untouched; transient codes produce no notification, all other
codes produce a non-fatal warning notification. -/
def recognitionOnError (s : AppState) (errCode : Str) : AppState × Option Notice :=
  (s, if errCode ∈ transientSpeechErrors then none else some Notice.speechWarning)

/-! ## Supporting lemmas on strings and lists -/

theorem dropWhile_append_all {α : Type} {p : α → Bool} :
    ∀ {l t : List α}, (∀ x ∈ l, p x = true) → (l ++ t).dropWhile p = t.dropWhile p := by
  intro l t h
  induction l with
  | nil => rfl
  | cons a l ih =>
    have ha : p a = true := h a (List.mem_cons_self a l)
    simp only [List.cons_append, List.dropWhile_cons, ha, if_true]
    exact ih (fun x hx => h x (List.mem_cons_of_mem a hx))

theorem takeWhile_append_all {α : Type} {p : α → Bool} :
    ∀ {l t : List α}, (∀ x ∈ l, p x = true) → (l ++ t).takeWhile p = l ++ t.takeWhile p := by
  intro l t h
  induction l with
  | nil => rfl
  | cons a l ih =>
    have ha : p a = true := h a (List.mem_cons_self a l)
    simp only [List.cons_append, List.takeWhile_cons, ha, if_true]
    rw [ih (fun x hx => h x (List.mem_cons_of_mem a hx))]

theorem dropWhile_append_of_ne_nil {α : Type} {p : α → Bool} {l t : List α}
    (h : l.dropWhile p ≠ []) : (l ++ t).dropWhile p = l.dropWhile p ++ t := by
  rw [List.dropWhile_append, if_neg]
  simp [List.isEmpty_iff, h]

theorem jsTrim_sublist (s : Str) : (jsTrim s).Sublist s := by
  have h1 : (s.dropWhile jsWs).Sublist s := List.dropWhile_sublist _
  have h2 : ((s.dropWhile jsWs).reverse.dropWhile jsWs).Sublist (s.dropWhile jsWs).reverse :=
    List.dropWhile_sublist _
  have h3 : (jsTrim s).Sublist (s.dropWhile jsWs) := by
    rw [← List.reverse_reverse (s.dropWhile jsWs)]
    exact List.reverse_sublist.2 (by simpa using h2)
  exact h3.trans h1

theorem measureW_sublist_le (cw : Char → Nat) {s t : Str} (h : s.Sublist t) :
    measureW cw s ≤ measureW cw t :=
  List.Sublist.sum_le_sum (h.map cw) (fun a _ => Nat.zero_le a)

theorem measureW_jsTrim_le (cw : Char → Nat) (s : Str) :
    measureW cw (jsTrim s) ≤ measureW cw s :=
  measureW_sublist_le cw (jsTrim_sublist s)

theorem jsTrim_append_space (s : Str) : jsTrim (s ++ [' ']) = jsTrim s := by
  have hsp : jsWs ' ' = true := by decide
  by_cases h : s.dropWhile jsWs = []
  · unfold jsTrim
    rw [List.dropWhile_append, if_pos (by simp [List.isEmpty_iff, h]), h]
    simp [List.dropWhile_cons, hsp]
  · unfold jsTrim
    rw [dropWhile_append_of_ne_nil h]
    simp only [List.reverse_append, List.reverse_cons, List.reverse_nil, List.nil_append,
      List.singleton_append, List.dropWhile_cons, hsp, if_true]

theorem dropWhile_eq_self_all {α : Type} {p : α → Bool} {l : List α}
    (h : ∀ x ∈ l, p x = false) : l.dropWhile p = l := by
  cases l with
  | nil => rfl
  | cons a t =>
    rw [List.dropWhile_cons, if_neg]
    simp [h a (List.mem_cons_self a t)]

/-! ## Lemmas about collapseWs -/

theorem collapseWs_cons_nws {a : Char} {rest : Str} (ha : jsWs a = false) :
    collapseWs (a :: rest) = a :: collapseWs rest := by
  cases rest with
  | nil => simp [collapseWs, ha]
  | cons b cs => simp [collapseWs, ha]

theorem collapseWs_cons_ws_ws {a b : Char} {cs : Str} (ha : jsWs a = true)
    (hb : jsWs b = true) : collapseWs (a :: b :: cs) = collapseWs (b :: cs) := by
  simp [collapseWs, ha, hb]

theorem collapseWs_cons_ws_nws {a b : Char} {cs : Str} (ha : jsWs a = true)
    (hb : jsWs b = false) : collapseWs (a :: b :: cs) = '_' :: b :: collapseWs cs := by
  simp [collapseWs, ha, hb]

theorem mem_collapseWs : ∀ (s : Str), ∀ c ∈ collapseWs s, c = '_' ∨ (c ∈ s ∧ jsWs c = false) := by
  intro s
  induction s with
  | nil => simp [collapseWs]
  | cons a rest ih =>
    intro c hc
    by_cases hwa : jsWs a = true
    · cases rest with
      | nil =>
        simp only [collapseWs, hwa, if_true] at hc
        left
        simpa using hc
      | cons b cs =>
        by_cases hwb : jsWs b = true
        · rw [collapseWs_cons_ws_ws hwa hwb] at hc
          rcases ih c hc with h | ⟨hm, hw⟩
          · exact Or.inl h
          · exact Or.inr ⟨List.mem_cons_of_mem a hm, hw⟩
        · rw [collapseWs_cons_ws_nws hwa (by simpa using hwb)] at hc
          rcases List.mem_cons.1 hc with h | h
          · exact Or.inl h
          · rcases List.mem_cons.1 h with h2 | h2
            · subst h2
              exact Or.inr ⟨List.mem_cons_of_mem a (List.mem_cons_self c cs), by simpa using hwb⟩
            · have h3 : c ∈ collapseWs (b :: cs) := by
                rw [collapseWs_cons_nws (by simpa using hwb)]
                exact List.mem_cons_of_mem b h2
              rcases ih c h3 with h4 | ⟨hm, hw⟩
              · exact Or.inl h4
              · exact Or.inr ⟨List.mem_cons_of_mem a hm, hw⟩
    · rw [collapseWs_cons_nws (by simpa using hwa)] at hc
      rcases List.mem_cons.1 hc with h | h
      · subst h
        exact Or.inr ⟨List.mem_cons_self c rest, by simpa using hwa⟩
      · rcases ih c h with h2 | ⟨hm, hw⟩
        · exact Or.inl h2
        · exact Or.inr ⟨List.mem_cons_of_mem a hm, hw⟩

/-! ## Lemmas about stripLastExt and jsTrim on clean inputs -/

theorem jsTrim_eq_self {v : Str} (hl : v.dropWhile jsWs = v)
    (ht : v.reverse.dropWhile jsWs = v.reverse) : jsTrim v = v := by
  simp [jsTrim, hl, ht]

theorem jsTrim_ext_append {v e : Str} (hl : v.dropWhile jsWs = v) (hv : v ≠ [])
    (he : ∀ c ∈ e, jsWs c = false) : jsTrim (v ++ '.' :: e) = v ++ '.' :: e := by
  have hdot : jsWs '.' = false := by decide
  have h1 : (v ++ '.' :: e).dropWhile jsWs = v ++ '.' :: e := by
    rw [dropWhile_append_of_ne_nil (by rw [hl]; exact hv), hl]
  have h2 : (v ++ '.' :: e).reverse.dropWhile jsWs = (v ++ '.' :: e).reverse := by
    rw [List.reverse_append, List.reverse_cons, List.append_assoc]
    cases hre : e.reverse with
    | nil =>
      rw [List.nil_append, List.singleton_append, List.dropWhile_cons,
        if_neg (by simp [hdot])]
    | cons c t =>
      have hc : jsWs c = false :=
        he c (List.mem_reverse.1 (hre ▸ List.mem_cons_self c t))
      rw [List.cons_append, List.dropWhile_cons, if_neg (by simp [hc])]
  exact jsTrim_eq_self h1 h2

theorem stripLastExt_ext_append {v e : Str} (he : e ≠ [])
    (hce : ∀ c ∈ e, c ≠ '.' ∧ c ≠ '/') : stripLastExt (v ++ '.' :: e) = v := by
  have hp : ∀ c ∈ e.reverse, (fun c => !(c == '.' || c == '/')) c = true := by
    intro c hc
    rcases hce c (List.mem_reverse.1 hc) with ⟨h1, h2⟩
    simp [h1, h2]
  have hrev : (v ++ '.' :: e).reverse = e.reverse ++ '.' :: v.reverse := by
    rw [List.reverse_append, List.reverse_cons, List.append_assoc]
    rfl
  have hdot : (fun c => !(c == '.' || c == '/')) '.' = false := by decide
  have hdw : (v ++ '.' :: e).reverse.dropWhile (fun c => !(c == '.' || c == '/')) =
      '.' :: v.reverse := by
    rw [hrev, dropWhile_append_all hp, List.dropWhile_cons, if_neg (by simp [hdot])]
  have htw : (v ++ '.' :: e).reverse.takeWhile (fun c => !(c == '.' || c == '/')) =
      e.reverse := by
    rw [hrev, takeWhile_append_all hp, List.takeWhile_cons, if_neg (by simp [hdot]),
      List.append_nil]
  have hrn : e.reverse ≠ [] := by simpa using he
  unfold stripLastExt
  rw [hdw]
  simp only [htw]
  rw [if_pos ⟨hrn, trivial⟩, List.reverse_reverse]

/-! ## Claim theorems for the filename sanitizer (C10) -/

/-- Claim C10 counterexample: the claim asserts that for every input string and
extension the returned name contains none of the forbidden characters and no
whitespace; with input a, default x and the extension consisting of a space
and a slash, the returned name is exactly the three characters a, space, slash,
so it contains a forbidden character and a whitespace character. -/
theorem getSanitizedFilename_claim_counterexample :
    getSanitizedFilename (some ['a']) ['x'] [' ', '/'] = ['a', ' ', '/'] ∧
    ('/' ∈ getSanitizedFilename (some ['a']) ['x'] [' ', '/'] ∧
      isForbiddenFilenameChar '/' = true) ∧
    (' ' ∈ getSanitizedFilename (some ['a']) ['x'] [' ', '/'] ∧ jsWs ' ' = true) := by
  decide

/-- Claim C10 (amended): for every input string and extension the returned name
is a sanitized base followed by the given extension, where the base contains
none of the forbidden characters and no whitespace (so the whole name does
whenever the supplied extension does); an input that is absent or trims to
whitespace only behaves exactly like an absent input, falling back to the
default base name; and a final dot extension already present on a clean input
is removed, so appending one does not change the output. -/
theorem getSanitizedFilename_amended :
    ∀ (input : Option Str) (dflt ext : Str),
      (∃ base, getSanitizedFilename input dflt ext = base ++ ext ∧
        ∀ c ∈ base, isForbiddenFilenameChar c = false ∧ jsWs c = false) ∧
      (∀ v, input = some v → jsTrim v = [] →
        getSanitizedFilename input dflt ext = getSanitizedFilename none dflt ext) ∧
      (∀ v e, v.dropWhile jsWs = v → v.reverse.dropWhile jsWs = v.reverse → v ≠ [] →
        stripLastExt v = v → e ≠ [] →
        (∀ c ∈ e, jsWs c = false ∧ c ≠ '.' ∧ c ≠ '/') →
        getSanitizedFilename (some (v ++ '.' :: e)) dflt ext =
          getSanitizedFilename (some v) dflt ext) := by
  intro input dflt ext
  refine ⟨?_, ?_, ?_⟩
  · refine ⟨_, rfl, ?_⟩
    intro c hc
    rcases mem_collapseWs _ c hc with h | ⟨hm, hw⟩
    · subst h
      exact ⟨by decide, by decide⟩
    · refine ⟨?_, hw⟩
      have h2 := (List.mem_filter.1 hm).2
      simpa using h2
  · intro v hv htrim
    subst hv
    simp [getSanitizedFilename, htrim]
  · intro v e hl ht hv hs he hce
    have htrimv : jsTrim v = v := jsTrim_eq_self hl ht
    have htrima : jsTrim (v ++ '.' :: e) = v ++ '.' :: e :=
      jsTrim_ext_append hl hv (fun c hc => (hce c hc).1)
    have hstrip : stripLastExt (v ++ '.' :: e) = v :=
      stripLastExt_ext_append he (fun c hc => (hce c hc).2)
    have hne : v ++ '.' :: e ≠ [] := by simp
    simp only [getSanitizedFilename, htrima, htrimv, if_pos hne, if_pos hv, hstrip, hs]

/-- Claim C10 witness: the whitespace-only input falls back to the default, and
appending a txt extension to a clean input changes nothing. -/
theorem getSanitizedFilename_amended_witness :
    getSanitizedFilename (some [' ', '\t']) ['x'] ['.', 'm', 'p', '4'] =
      getSanitizedFilename none ['x'] ['.', 'm', 'p', '4'] ∧
    getSanitizedFilename (some (['a'] ++ '.' :: ['t', 'x', 't'])) ['x'] ['.', 'm', 'p', '4'] =
      getSanitizedFilename (some ['a']) ['x'] ['.', 'm', 'p', '4'] := by
  constructor
  · exact (getSanitizedFilename_amended (some [' ', '\t']) ['x'] ['.', 'm', 'p', '4']).2.1
      [' ', '\t'] rfl (by decide)
  · exact (getSanitizedFilename_amended (some (['a'] ++ '.' :: ['t', 'x', 't']))
      ['x'] ['.', 'm', 'p', '4']).2.2 ['a'] ['t', 'x', 't']
      (by decide) (by decide) (by decide) (by decide) (by decide) (by decide)

/-! ## Claim theorems for transcription error handling (C7) -/

/-- Claim C7: a live-transcription error never changes the session state (so it
neither aborts nor resets an in-progress recording); errors in the transient
set are swallowed with no notification, and every other error surfaces only as
a non-fatal warning notification. -/
theorem transcription_error_isolation :
    ∀ (s : AppState) (errCode : Str),
      (recognitionOnError s errCode).1 = s ∧
      (errCode ∈ transientSpeechErrors → (recognitionOnError s errCode).2 = none) ∧
      (errCode ∉ transientSpeechErrors →
        (recognitionOnError s errCode).2 = some Notice.speechWarning) := by
  intro s errCode
  refine ⟨rfl, ?_, ?_⟩ <;> intro h <;> simp [recognitionOnError, h]

/-- Claim C7 witness: the aborted error is swallowed, a network error surfaces
as a warning, and neither changes the state. -/
theorem transcription_error_isolation_witness :
    (recognitionOnError (initState true) ['a', 'b', 'o', 'r', 't', 'e', 'd']).1 =
      initState true ∧
    (recognitionOnError (initState true) ['a', 'b', 'o', 'r', 't', 'e', 'd']).2 = none ∧
    (recognitionOnError (initState true) ['n', 'e', 't', 'w', 'o', 'r', 'k']).2 =
      some Notice.speechWarning := by
  refine ⟨(transcription_error_isolation (initState true) _).1, ?_, ?_⟩
  · exact (transcription_error_isolation (initState true)
      ['a', 'b', 'o', 'r', 't', 'e', 'd']).2.1 (by decide)
  · exact (transcription_error_isolation (initState true)
      ['n', 'e', 't', 'w', 'o', 'r', 'k']).2.2 (by decide)

/-! ## Claim theorems for reset (C9) -/

/-- Claim C9: resetApp releases exactly the handles that are live, each exactly
once (the emitted release list is duplicate free), and it is idempotent: after
a reset no handle is live, so a second reset in immediate succession emits no
release at all and in particular performs no double release. -/
theorem resetApp_release_once_idempotent :
    ∀ (p q : Bool) (s : AppState),
      (resetApp p s).2 = liveHandles s ∧
      ((resetApp p s).2).Nodup ∧
      liveHandles (resetApp p s).1 = [] ∧
      (resetApp q (resetApp p s).1).2 = [] := by
  intro p q s
  have hone : ∀ (b : Bool) (x : SessionHandle), (if b then [x] else []).Sublist [x] := by
    intro b x
    cases b <;> simp
  have hsub : (liveHandles s).Sublist
      ([SessionHandle.mediaRecorder] ++ [SessionHandle.recognition] ++
        [SessionHandle.micStream] ++ [SessionHandle.bufferSource] ++
        [SessionHandle.destinationNode] ++ [SessionHandle.audioCtx] ++
        [SessionHandle.animationFrame]) := by
    unfold liveHandles
    exact ((((((hone _ _).append (hone _ _)).append (hone _ _)).append
      (hone _ _)).append (hone _ _)).append (hone _ _)).append (hone _ _)
  refine ⟨rfl, List.Nodup.sublist hsub (by decide), ?_, ?_⟩
  · simp [resetApp, liveHandles]
  · simp [resetApp, liveHandles]

/-! ## Claim theorems for the export stop race (C4) -/

theorem stopFold_inactive (l : List StopTriggerSrc) (n : Nat) :
    l.foldl
      (fun p _ =>
        let q := videoStopTrigger p.1
        (q.1, p.2 + (if q.2 then 1 else 0)))
      (VideoRecState.inactive, n) = (VideoRecState.inactive, n) := by
  induction l with
  | nil => rfl
  | cons a l ih => simpa [videoStopTrigger] using ih

theorem runStopTriggers_cons (first : StopTriggerSrc) (rest : List StopTriggerSrc) :
    runStopTriggers (first :: rest) = (VideoRecState.inactive, 1) := by
  unfold runStopTriggers
  rw [List.foldl_cons]
  simpa [videoStopTrigger] using stopFold_inactive rest 1

/-- Claim C4: from a recording export encoder, whichever stop trigger fires
first requests finalize and every later trigger is a no-op (exactly one stop
request is issued over any firing order); and since the environment fires the
timeout trigger at decoded duration times 1000 plus the fixed 500 millisecond
margin, the encoder is inactive once all triggers up to that deadline are
processed, even when the playback-ended trigger never fires. -/
theorem export_stop_race :
    (∀ (first : StopTriggerSrc) (rest : List StopTriggerSrc),
      (runStopTriggers (first :: rest)).1 = VideoRecState.inactive ∧
      (runStopTriggers (first :: rest)).2 = 1) ∧
    (∀ (d : Nat) (evs : List (Nat × StopTriggerSrc)),
      (stopTimeoutMs d, StopTriggerSrc.timeoutFired) ∈ evs →
      stateAtDeadline d evs = VideoRecState.inactive) := by
  constructor
  · intro first rest
    rw [runStopTriggers_cons]
    exact ⟨rfl, rfl⟩
  · intro d evs hmem
    have hin : (stopTimeoutMs d, StopTriggerSrc.timeoutFired) ∈
        evs.filter (fun e => decide (e.1 ≤ stopTimeoutMs d)) :=
      List.mem_filter.2 ⟨hmem, by simp⟩
    have hne : (evs.filter (fun e => decide (e.1 ≤ stopTimeoutMs d))).map Prod.snd ≠ [] := by
      intro hnil
      rw [List.map_eq_nil_iff] at hnil
      rw [hnil] at hin
      exact (List.not_mem_nil _) hin
    obtain ⟨a, l, hal⟩ := List.exists_cons_of_ne_nil hne
    unfold stateAtDeadline
    rw [hal, runStopTriggers_cons]

/-- Claim C4 witness: with the playback-ended trigger firing first and the
timeout second, the encoder ends inactive after exactly one stop request; and
a two second recording with only the timeout trigger at 2500 milliseconds is
inactive at the deadline. -/
theorem export_stop_race_witness :
    (runStopTriggers [StopTriggerSrc.playbackEnded, StopTriggerSrc.timeoutFired]).1 =
      VideoRecState.inactive ∧
    (runStopTriggers [StopTriggerSrc.playbackEnded, StopTriggerSrc.timeoutFired]).2 = 1 ∧
    stateAtDeadline 2 [(2500, StopTriggerSrc.timeoutFired)] = VideoRecState.inactive := by
  refine ⟨(export_stop_race.1 StopTriggerSrc.playbackEnded [StopTriggerSrc.timeoutFired]).1,
    (export_stop_race.1 StopTriggerSrc.playbackEnded [StopTriggerSrc.timeoutFired]).2, ?_⟩
  exact export_stop_race.2 2 [(2500, StopTriggerSrc.timeoutFired)] (by decide)

/-! ## Claim theorems for the export preconditions (C1) and decode rollback (C5) -/

/-- Claim C1: whenever the audio artifact is absent, the trimmed transcript is
empty, or the required export features are missing, invoking generateVideo
leaves the session state completely unchanged, opens and releases no resource
handle, and reports the corresponding reason: NoAudio for a missing artifact,
EmptyTranscript for a present artifact with an empty trimmed transcript, and
UnsupportedEnvironment otherwise. -/
theorem generateVideo_precheck_no_handles :
    ∀ (env : ExportEnv) (s : AppState),
      (s.audioBlob = none ∨ jsTrim s.subtitleText = [] ∨
        ¬(env.hasCanvasCaptureStream = true ∧ env.hasAudioContext = true)) →
      exportStartHandler env s = s ∧
      (generateVideoSetup env s.audioBlob s.subtitleText).opened = [] ∧
      (generateVideoSetup env s.audioBlob s.subtitleText).released = [] ∧
      (generateVideoSetup env s.audioBlob s.subtitleText).err =
        some (if s.audioBlob.isNone = true then VideoGenError.NoAudio
          else if jsTrim s.subtitleText = [] then VideoGenError.EmptyTranscript
          else VideoGenError.UnsupportedEnvironment) := by
  intro env s h
  by_cases hb : s.audioBlob = none
  · have hbn : s.audioBlob.isNone = true := by simp [hb]
    refine ⟨?_, ?_, ?_, ?_⟩ <;> simp [generateVideoSetup, exportStartHandler, hbn]
  · have hbn : s.audioBlob.isNone = false := by
      cases hs : s.audioBlob with
      | none => exact absurd hs hb
      | some b => simp
    by_cases ht : jsTrim s.subtitleText = []
    · refine ⟨?_, ?_, ?_, ?_⟩ <;> simp [generateVideoSetup, exportStartHandler, hbn, ht]
    · have henv : ¬(env.hasCanvasCaptureStream = true ∧ env.hasAudioContext = true) := by
        rcases h with h | h | h
        · exact absurd h hb
        · exact absurd h ht
        · exact h
      have hasb : (env.hasCanvasCaptureStream && env.hasAudioContext) = false := by
        cases c1 : env.hasCanvasCaptureStream <;> cases c2 : env.hasAudioContext <;>
          simp_all
      refine ⟨?_, ?_, ?_, ?_⟩ <;>
        simp [generateVideoSetup, exportStartHandler, hbn, ht, hasb]

/-- Claim C1 witness: in a fully capable environment with no recorded artifact,
generateVideo changes nothing, opens nothing, and reports NoAudio. -/
theorem generateVideo_precheck_witness :
    exportStartHandler ⟨true, true, true, true⟩ (initState true) = initState true ∧
    (generateVideoSetup ⟨true, true, true, true⟩ (initState true).audioBlob
      (initState true).subtitleText).opened = [] ∧
    (generateVideoSetup ⟨true, true, true, true⟩ (initState true).audioBlob
      (initState true).subtitleText).released = [] ∧
    (generateVideoSetup ⟨true, true, true, true⟩ (initState true).audioBlob
      (initState true).subtitleText).err = some VideoGenError.NoAudio := by
  have h := generateVideo_precheck_no_handles ⟨true, true, true, true⟩ (initState true)
    (Or.inl rfl)
  exact ⟨h.1, h.2.1, h.2.2.1, by simpa using h.2.2.2⟩

/-- Claim C5: when the preconditions pass, canvas capture succeeds, and
decoding the stored artifact fails, generateVideo reports AudioDecodeFailed,
returns the session to the recorded state with artifact and transcript intact,
and the handles it released are exactly the handles it had opened (animation
loop, capture stream, destination node and audio context; the buffer source
was never created), in particular the redraw loop and the capture stream. -/
theorem decode_failure_rollback :
    ∀ (env : ExportEnv) (s : AppState),
      s.audioBlob.isSome = true → jsTrim s.subtitleText ≠ [] →
      env.hasCanvasCaptureStream = true → env.hasAudioContext = true →
      env.captureOk = true → env.decodeOk = false →
      exportStartHandler env s = { s with ui := UIState.recorded } ∧
      (exportStartHandler env s).audioBlob = s.audioBlob ∧
      (exportStartHandler env s).subtitleText = s.subtitleText ∧
      (generateVideoSetup env s.audioBlob s.subtitleText).err =
        some VideoGenError.AudioDecodeFailed ∧
      ((generateVideoSetup env s.audioBlob s.subtitleText).released).Perm
        ((generateVideoSetup env s.audioBlob s.subtitleText).opened) ∧
      VideoHandle.animationLoop ∈ (generateVideoSetup env s.audioBlob s.subtitleText).released ∧
      VideoHandle.canvasCapture ∈ (generateVideoSetup env s.audioBlob s.subtitleText).released := by
  intro env s hb ht h1 h2 h3 h4
  have hbn : s.audioBlob.isNone = false := by
    cases hs : s.audioBlob with
    | none => rw [hs] at hb; simp at hb
    | some b => simp
  have hsetup : generateVideoSetup env s.audioBlob s.subtitleText =
      ⟨some VideoGenError.AudioDecodeFailed,
        [VideoHandle.animationLoop, VideoHandle.canvasCapture,
          VideoHandle.audioCtxV, VideoHandle.destNodeV],
        [VideoHandle.animationLoop, VideoHandle.canvasCapture,
          VideoHandle.destNodeV, VideoHandle.audioCtxV],
        some UIState.recorded, false⟩ := by
    simp [generateVideoSetup, hbn, ht, h1, h2, h3, h4]
  refine ⟨?_, ?_, ?_, ?_, ?_, ?_, ?_⟩
  · simp [exportStartHandler, hsetup]
  · simp [exportStartHandler, hsetup]
  · simp [exportStartHandler, hsetup]
  · rw [hsetup]
  · rw [hsetup]; decide
  · rw [hsetup]; decide
  · rw [hsetup]; decide

/-- Claim C5 witness: a recorded session with a two byte artifact and
transcript hi, in a capable environment whose decode step fails. -/
theorem decode_failure_rollback_witness :
    (exportStartHandler ⟨true, true, true, false⟩
        { initState false with
          audioBlob := some [1, 2]
          subtitleText := ['h', 'i']
          ui := UIState.recorded }).audioBlob = some [1, 2] ∧
    (exportStartHandler ⟨true, true, true, false⟩
        { initState false with
          audioBlob := some [1, 2]
          subtitleText := ['h', 'i']
          ui := UIState.recorded }).subtitleText = ['h', 'i'] ∧
    (generateVideoSetup ⟨true, true, true, false⟩ (some [1, 2]) ['h', 'i']).err =
      some VideoGenError.AudioDecodeFailed := by
  have h := decode_failure_rollback ⟨true, true, true, false⟩
    { initState false with
      audioBlob := some [1, 2]
      subtitleText := ['h', 'i']
      ui := UIState.recorded } (by decide) (by decide) rfl rfl rfl rfl
  exact ⟨h.2.1, h.2.2.1, h.2.2.2.1⟩

/-! ## Claim theorems for short-recording discard (C2) -/

/-- Claim C2: when the total size of the captured fragments is below the
minimum threshold, the finalize handler leaves no artifact set and ends in the
idle state (an implicit full reset); when at least one fragment was captured,
the too-short notice is reported on that path. -/
theorem shortRecording_discard :
    ∀ s : AppState,
      ((s.audioChunks.map List.length).sum < MIN_RECORDING_BLOB_SIZE →
        (onstopCore s).1.ui = UIState.idle ∧ (onstopCore s).1.audioBlob = none) ∧
      (s.audioChunks ≠ [] →
        (s.audioChunks.map List.length).sum < MIN_RECORDING_BLOB_SIZE →
        Notice.tooShort ∈ (onstopCore s).2) := by
  intro s
  by_cases hc : s.audioChunks = []
  · constructor
    · intro _
      constructor <;> simp [onstopCore, hc, resetApp]
    · intro h
      exact absurd hc h
  · have hlen : s.audioChunks.flatten.length = (s.audioChunks.map List.length).sum :=
      List.length_flatten s.audioChunks
    constructor
    · intro hsum
      constructor <;> simp [onstopCore, hc, hsum, resetApp]
    · intro _ hsum
      simp [onstopCore, hc, hsum]

/-- Claim C2 witness: a recording session that captured a single three byte
fragment resets to idle with no artifact and a too-short notice. -/
theorem shortRecording_discard_witness :
    (onstopCore { initState true with
        isRecording := true
        streamLive := true
        mediaRecStoppable := true
        audioChunks := [[0, 1, 2]] }).1.ui = UIState.idle ∧
    (onstopCore { initState true with
        isRecording := true
        streamLive := true
        mediaRecStoppable := true
        audioChunks := [[0, 1, 2]] }).1.audioBlob = none ∧
    Notice.tooShort ∈ (onstopCore { initState true with
        isRecording := true
        streamLive := true
        mediaRecStoppable := true
        audioChunks := [[0, 1, 2]] }).2 := by
  have h := shortRecording_discard { initState true with
    isRecording := true
    streamLive := true
    mediaRecStoppable := true
    audioChunks := [[0, 1, 2]] }
  exact ⟨(h.1 (by decide)).1, (h.1 (by decide)).2, h.2 (by decide) (by decide)⟩

/-! ## Claim theorems for fragment assembly (C3) -/

theorem frag_fold :
    ∀ (ds : List Blob) (s : AppState), s.isRecording = true → (∀ d ∈ ds, d ≠ []) →
      (ds.map Ev.frag).foldl stepEv s = { s with audioChunks := s.audioChunks ++ ds } := by
  intro ds
  induction ds with
  | nil => intro s _ _; simp
  | cons d ds ih =>
    intro s hrec hne
    have hd : 0 < d.length := List.length_pos.2 (hne d (List.mem_cons_self d ds))
    have hstep : stepEv s (Ev.frag d) = { s with audioChunks := s.audioChunks ++ [d] } := by
      simp [stepEv, hrec, hd]
    rw [List.map_cons, List.foldl_cons, hstep,
      ih _ (by simp [hrec]) (fun x hx => hne x (List.mem_cons_of_mem d hx))]
    simp

/-- Claim C3: starting a recording and delivering any sequence of non-empty
fragments, the finalize step concatenates exactly those fragments in delivery
order into the artifact, whose size is the sum of the fragment sizes; once the
waveform collaborator confirms (or immediately when it is absent) the state is
recorded; delivering zero fragments yields no artifact and an implicit reset
to idle. -/
theorem fragments_concat_order :
    ∀ (ws sr : Bool) (ds : List Blob), (∀ d ∈ ds, d ≠ []) →
      (ds ≠ [] → MIN_RECORDING_BLOB_SIZE ≤ (ds.map List.length).sum →
        (runEvents ws
            (Ev.startOk sr :: (ds.map Ev.frag ++ [Ev.stopReq, Ev.captureStop]))).audioBlob =
          some ds.flatten ∧
        ds.flatten.length = (ds.map List.length).sum ∧
        (runEvents ws
            (Ev.startOk sr ::
              (ds.map Ev.frag ++ [Ev.stopReq, Ev.captureStop, Ev.wsReadyEv]))).ui =
          UIState.recorded) ∧
      (ds = [] →
        (runEvents ws
            (Ev.startOk sr :: (ds.map Ev.frag ++ [Ev.stopReq, Ev.captureStop]))).audioBlob =
          none ∧
        (runEvents ws
            (Ev.startOk sr :: (ds.map Ev.frag ++ [Ev.stopReq, Ev.captureStop]))).ui =
          UIState.idle) := by
  intro ws sr ds hne
  have h0 : stepEv (initState ws) (Ev.startOk sr) =
      { initState ws with
        isRecording := true
        streamLive := true
        mediaRecStoppable := true
        recActive := sr
        ui := UIState.recording } := by
    rfl
  have hB : (ds.map Ev.frag).foldl stepEv
      { initState ws with
        isRecording := true
        streamLive := true
        mediaRecStoppable := true
        recActive := sr
        ui := UIState.recording } =
      { initState ws with
        isRecording := true
        streamLive := true
        mediaRecStoppable := true
        recActive := sr
        ui := UIState.recording
        audioChunks := ds } := by
    rw [frag_fold ds _ rfl hne]
    simp [initState]
  have hstop : stepEv
      { initState ws with
        isRecording := true
        streamLive := true
        mediaRecStoppable := true
        recActive := sr
        ui := UIState.recording
        audioChunks := ds } Ev.stopReq =
      { initState ws with
        isRecording := true
        streamLive := true
        audioChunks := ds
        isProcessingStop := true
        ui := UIState.processing } := by
    rfl
  have hfold : ∀ (tail : List Ev),
      runEvents ws (Ev.startOk sr :: (ds.map Ev.frag ++ tail)) =
        tail.foldl stepEv
          { initState ws with
            isRecording := true
            streamLive := true
            mediaRecStoppable := true
            recActive := sr
            ui := UIState.recording
            audioChunks := ds } := by
    intro tail
    unfold runEvents
    rw [List.foldl_cons, h0, List.foldl_append, hB]
  constructor
  · intro hds hsum
    have hflat : ds.flatten.length = (ds.map List.length).sum := List.length_flatten ds
    have hnotlt : ¬ds.flatten.length < MIN_RECORDING_BLOB_SIZE := by
      rw [hflat]
      omega
    have hcap : onstopCore
        { initState ws with
          isRecording := true
          streamLive := true
          audioChunks := ds
          isProcessingStop := true
          ui := UIState.processing } =
        ({ initState ws with
          audioBlob := some ds.flatten
          ui := if ws then UIState.processing else UIState.recorded }, []) := by
      simp only [onstopCore]
      rw [if_neg (by simpa [initState] using hds)]
      simp only [initState]
      rw [if_neg (by simpa using hnotlt)]
      cases ws <;> simp
    have hcs : stepEv
        { initState ws with
          isRecording := true
          streamLive := true
          audioChunks := ds
          isProcessingStop := true
          ui := UIState.processing } Ev.captureStop =
        { initState ws with
          audioBlob := some ds.flatten
          ui := if ws then UIState.processing else UIState.recorded } := by
      rw [show stepEv
          { initState ws with
            isRecording := true
            streamLive := true
            audioChunks := ds
            isProcessingStop := true
            ui := UIState.processing } Ev.captureStop =
          (onstopCore
            { initState ws with
              isRecording := true
              streamLive := true
              audioChunks := ds
              isProcessingStop := true
              ui := UIState.processing }).1 from rfl, hcap]
    refine ⟨?_, hflat, ?_⟩
    · rw [hfold [Ev.stopReq, Ev.captureStop], List.foldl_cons, hstop, List.foldl_cons, hcs,
        List.foldl_nil]
    · rw [hfold [Ev.stopReq, Ev.captureStop, Ev.wsReadyEv], List.foldl_cons, hstop,
        List.foldl_cons, hcs, List.foldl_cons, List.foldl_nil]
      cases ws <;> simp [stepEv, initState]
  · intro hds
    subst hds
    constructor
    · rw [hfold [Ev.stopReq, Ev.captureStop], List.foldl_cons, hstop, List.foldl_cons,
        List.foldl_nil]
      simp [stepEv, onstopCore, initState, resetApp]
    · rw [hfold [Ev.stopReq, Ev.captureStop], List.foldl_cons, hstop, List.foldl_cons,
        List.foldl_nil]
      simp [stepEv, onstopCore, initState, resetApp]

set_option maxRecDepth 100000 in
/-- Claim C3 witness: three 500 byte fragments yield a 1500 byte artifact and,
after the waveform collaborator confirms, the recorded state; with no
wavesurfer the run is covered by the same theorem. -/
theorem fragments_concat_order_witness :
    (runEvents true
        (Ev.startOk true ::
          ([List.replicate 500 1, List.replicate 500 2,
            List.replicate 500 3].map Ev.frag ++ [Ev.stopReq, Ev.captureStop]))).audioBlob =
      some [List.replicate 500 1, List.replicate 500 2, List.replicate 500 3].flatten ∧
    ([List.replicate 500 1, List.replicate 500 2,
        List.replicate 500 3] : List Blob).flatten.length = 1500 ∧
    (runEvents true
        (Ev.startOk true ::
          ([List.replicate 500 1, List.replicate 500 2, List.replicate 500 3].map Ev.frag ++
            [Ev.stopReq, Ev.captureStop, Ev.wsReadyEv]))).ui = UIState.recorded := by
  have h := (fragments_concat_order true true
    [List.replicate 500 1, List.replicate 500 2, List.replicate 500 3]
    (by decide)).1 (by decide) (by decide)
  refine ⟨h.1, ?_, h.2.2⟩
  rw [h.2.1]
  decide

/-! ## Claim theorems for the session invariant (C8) -/

theorem inv_of_none_nil {s : AppState} (hb : s.audioBlob = none) (hc : s.audioChunks = []) :
    SessionInv s := by
  constructor
  · intro hx
    rw [hb] at hx
    simp at hx
  · intro hx
    exact (hx hc).elim

theorem inv_of_quiet {s : AppState} (hr : s.isRecording = false)
    (hp : s.isProcessingStop = false) (hc : s.audioChunks = []) : SessionInv s := by
  constructor
  · intro _
    exact ⟨hr, hp⟩
  · intro hx
    exact (hx hc).elim

theorem inv_congr {s t : AppState} (h : SessionInv s) (hb : t.audioBlob = s.audioBlob)
    (hc : t.audioChunks = s.audioChunks) (hr : t.isRecording = s.isRecording)
    (hp : t.isProcessingStop = s.isProcessingStop) : SessionInv t := by
  constructor
  · intro hx
    rw [hb] at hx
    rw [hr, hp]
    exact h.1 hx
  · intro hx
    rw [hc] at hx
    rw [hr, hp]
    exact h.2 hx

theorem stepEv_preserves_inv (s : AppState) (e : Ev) (h : SessionInv s) :
    SessionInv (stepEv s e) := by
  obtain ⟨h1, h2⟩ := h
  cases e with
  | startOk sr =>
    by_cases hg : s.isRecording = true ∨ s.isProcessingStop = true
    · rw [show stepEv s (Ev.startOk sr) = s from by simp [stepEv, hg]]
      exact ⟨h1, h2⟩
    · exact inv_of_none_nil (by simp [stepEv, hg, resetApp]) (by simp [stepEv, hg, resetApp])
  | frag d =>
    by_cases hg : s.isRecording = true ∨ s.isProcessingStop = true
    · by_cases hd : 0 < d.length
      · rw [show stepEv s (Ev.frag d) = { s with audioChunks := s.audioChunks ++ [d] } from by
          simp [stepEv, hg, hd]]
        constructor
        · intro hx
          simp only at hx
          exact h1 hx
        · intro _
          exact hg
      · rw [show stepEv s (Ev.frag d) = s from by simp [stepEv, hg, hd]]
        exact ⟨h1, h2⟩
    · rw [show stepEv s (Ev.frag d) = s from by simp [stepEv, hg]]
      exact ⟨h1, h2⟩
  | stopReq =>
    by_cases hg : s.isRecording = false ∨ s.isProcessingStop = true
    · rw [show stepEv s Ev.stopReq = s from by simp [stepEv, hg]]
      exact ⟨h1, h2⟩
    · have hrec : s.isRecording = true := by
        cases hx : s.isRecording with
        | false => exact absurd (Or.inl hx) hg
        | true => rfl
      by_cases hm : s.mediaRecStoppable = true
      · constructor
        · intro hx
          have hb : s.audioBlob.isSome = true := by
            simpa [stepEv, hg, hm] using hx
          have := (h1 hb).1
          rw [this] at hrec
          exact absurd hrec (by simp)
        · intro _
          right
          simp [stepEv, hg, hm]
      · exact inv_of_none_nil (by simp [stepEv, hg, hm, resetApp])
          (by simp [stepEv, hg, hm, resetApp])
  | captureStop =>
    by_cases hc : s.audioChunks = []
    · exact inv_of_none_nil (by simp [stepEv, onstopCore, hc, resetApp])
        (by simp [stepEv, onstopCore, hc, resetApp])
    · by_cases hlt : (s.audioChunks.map List.length).sum < MIN_RECORDING_BLOB_SIZE
      · exact inv_of_none_nil (by simp [stepEv, onstopCore, hc, hlt, resetApp])
          (by simp [stepEv, onstopCore, hc, hlt, resetApp])
      · by_cases hw : s.wavesurfer = true
        · exact inv_of_quiet (by simp [stepEv, onstopCore, hc, hlt, hw])
            (by simp [stepEv, onstopCore, hc, hlt, hw])
            (by simp [stepEv, onstopCore, hc, hlt, hw])
        · exact inv_of_quiet (by simp [stepEv, onstopCore, hc, hlt, hw])
            (by simp [stepEv, onstopCore, hc, hlt, hw])
            (by simp [stepEv, onstopCore, hc, hlt, hw])
  | wsReadyEv =>
    by_cases hw : s.wavesurfer = true
    · exact inv_congr ⟨h1, h2⟩ (by simp [stepEv, hw]) (by simp [stepEv, hw])
        (by simp [stepEv, hw]) (by simp [stepEv, hw])
    · rw [show stepEv s Ev.wsReadyEv = s from by simp [stepEv, hw]]
      exact ⟨h1, h2⟩
  | wsErrorEv =>
    by_cases hw : s.wavesurfer = true
    · exact inv_of_quiet (by simp [stepEv, hw, resetApp]) (by simp [stepEv, hw, resetApp])
        (by simp [stepEv, hw, resetApp])
    · rw [show stepEv s Ev.wsErrorEv = s from by simp [stepEv, hw]]
      exact ⟨h1, h2⟩
  | exportStart env =>
    cases hu : (generateVideoSetup env s.audioBlob s.subtitleText).uiAfter with
    | none =>
      rw [show stepEv s (Ev.exportStart env) = s from by
        simp [stepEv, exportStartHandler, hu]]
      exact ⟨h1, h2⟩
    | some u =>
      by_cases hp : (generateVideoSetup env s.audioBlob s.subtitleText).proceed = true
      · exact inv_congr ⟨h1, h2⟩ (by simp [stepEv, exportStartHandler, hu, hp])
          (by simp [stepEv, exportStartHandler, hu, hp])
          (by simp [stepEv, exportStartHandler, hu, hp])
          (by simp [stepEv, exportStartHandler, hu, hp])
      · exact inv_congr ⟨h1, h2⟩ (by simp [stepEv, exportStartHandler, hu, hp])
          (by simp [stepEv, exportStartHandler, hu, hp])
          (by simp [stepEv, exportStartHandler, hu, hp])
          (by simp [stepEv, exportStartHandler, hu, hp])
  | exportDone =>
    by_cases hx : s.exportActive = true
    · exact inv_congr ⟨h1, h2⟩ (by simp [stepEv, hx]) (by simp [stepEv, hx])
        (by simp [stepEv, hx]) (by simp [stepEv, hx])
    · rw [show stepEv s Ev.exportDone = s from by simp [stepEv, hx]]
      exact ⟨h1, h2⟩
  | resetReq =>
    by_cases hg : (s.ui = UIState.idle ∧ s.audioBlob = none ∧ jsTrim s.subtitleText = []) ∨
        s.ui = UIState.processing ∨ s.ui = UIState.recording
    · rw [show stepEv s Ev.resetReq = s from by simp [stepEv, hg]]
      exact ⟨h1, h2⟩
    · exact inv_of_none_nil (by simp [stepEv, hg, resetApp]) (by simp [stepEv, hg, resetApp])
  | clearTranscript =>
    by_cases hg : (s.ui = UIState.idle ∧ s.audioBlob = none ∧ jsTrim s.subtitleText = []) ∨
        s.ui = UIState.processing ∨ s.ui = UIState.recording
    · rw [show stepEv s Ev.clearTranscript = s from by simp [stepEv, hg]]
      exact ⟨h1, h2⟩
    · exact inv_congr ⟨h1, h2⟩ (by simp [stepEv, hg]) (by simp [stepEv, hg])
        (by simp [stepEv, hg]) (by simp [stepEv, hg])
  | editTranscript t =>
    by_cases hg : s.ui = UIState.recording ∨ s.ui = UIState.processing
    · rw [show stepEv s (Ev.editTranscript t) = s from by simp [stepEv, hg]]
      exact ⟨h1, h2⟩
    · exact inv_congr ⟨h1, h2⟩ (by simp [stepEv, hg]) (by simp [stepEv, hg])
        (by simp [stepEv, hg]) (by simp [stepEv, hg])

theorem foldl_inv : ∀ (evs : List Ev) (s : AppState), SessionInv s →
    SessionInv (evs.foldl stepEv s) := by
  intro evs
  induction evs with
  | nil => intro s h; exact h
  | cons e evs ih =>
    intro s h
    exact ih _ (stepEv_preserves_inv s e h)

/-- Claim C8: in every state reachable by the coordinator from page load, the
audio artifact is set only while the abstract phase is recorded or exporting,
and the captured-fragment buffer is non-empty only while the phase is
recording or stopping. -/
theorem session_artifact_invariant :
    ∀ (ws : Bool) (evs : List Ev),
      ((runEvents ws evs).audioBlob.isSome = true →
        phaseOf (runEvents ws evs) = Phase.recorded ∨
        phaseOf (runEvents ws evs) = Phase.exporting) ∧
      ((runEvents ws evs).audioChunks ≠ [] →
        phaseOf (runEvents ws evs) = Phase.recording ∨
        phaseOf (runEvents ws evs) = Phase.stopping) := by
  intro ws evs
  have hinv : SessionInv (runEvents ws evs) := by
    apply foldl_inv
    constructor
    · intro hx
      simp [initState] at hx
    · intro hx
      simp [initState] at hx
  constructor
  · intro hb
    obtain ⟨hr, hp⟩ := hinv.1 hb
    cases hx : (runEvents ws evs).exportActive with
    | true =>
      right
      simp [phaseOf, hr, hp, hx]
    | false =>
      left
      simp [phaseOf, hr, hp, hx, hb]
  · intro hc
    rcases hinv.2 hc with hr | hp
    · left
      simp [phaseOf, hr]
    · cases hrec : (runEvents ws evs).isRecording with
      | true =>
        left
        simp [phaseOf, hrec]
      | false =>
        right
        simp [phaseOf, hrec, hp]

set_option maxRecDepth 100000 in
/-- Claim C8 witness: after a start, one 120 byte fragment, a stop request and
the encoder finalize event, the artifact is set and the phase is recorded. -/
theorem session_artifact_invariant_witness :
    phaseOf (runEvents true
        [Ev.startOk true, Ev.frag (List.replicate 120 7), Ev.stopReq, Ev.captureStop]) =
      Phase.recorded ∨
    phaseOf (runEvents true
        [Ev.startOk true, Ev.frag (List.replicate 120 7), Ev.stopReq, Ev.captureStop]) =
      Phase.exporting := by
  exact (session_artifact_invariant true
    [Ev.startOk true, Ev.frag (List.replicate 120 7), Ev.stopReq, Ev.captureStop]).1
    (by decide)

/-! ## Lemmas about word joins -/

theorem trailJoin_concat (ch : List Str) (w : Str) :
    trailJoin (ch ++ [w]) = trailJoin ch ++ w ++ [' '] := by
  induction ch with
  | nil => simp [trailJoin]
  | cons a ch ih => simp [trailJoin, ih, List.append_assoc]

theorem finJoin_cons_of_ne {w : Str} {l : List Str} (h : l ≠ []) :
    finJoin (w :: l) = w ++ ' ' :: finJoin l := by
  cases l with
  | nil => exact absurd rfl h
  | cons b t => rfl

theorem finJoin_concat (ch : List Str) (w : Str) :
    finJoin (ch ++ [w]) = trailJoin ch ++ w := by
  induction ch with
  | nil => simp [finJoin, trailJoin]
  | cons a ch ih =>
    rw [List.cons_append, finJoin_cons_of_ne (by simp), ih]
    simp [trailJoin, List.append_assoc]

theorem trailJoin_eq_finJoin_append : ∀ (ch : List Str), ch ≠ [] →
    trailJoin ch = finJoin ch ++ [' '] := by
  intro ch
  induction ch with
  | nil => intro h; exact absurd rfl h
  | cons a ch ih =>
    intro _
    cases ch with
    | nil => simp [trailJoin, finJoin]
    | cons b t =>
      calc trailJoin (a :: b :: t)
          = a ++ ' ' :: trailJoin (b :: t) := rfl
        _ = a ++ ' ' :: (finJoin (b :: t) ++ [' ']) := by rw [ih (by simp)]
        _ = (a ++ ' ' :: finJoin (b :: t)) ++ [' '] := by simp
        _ = finJoin (a :: b :: t) ++ [' '] := by
              rw [finJoin_cons_of_ne (show (b :: t) ≠ [] by simp)]

theorem jsTrim_trailJoin (ch : List Str) : jsTrim (trailJoin ch) = jsTrim (finJoin ch) := by
  cases ch with
  | nil => rfl
  | cons a t =>
    rw [trailJoin_eq_finJoin_append (a :: t) (by simp), jsTrim_append_space]

/-! ## The wrapping specification (C6) -/

theorem wrapAux_spec (cw : Char → Nat) (maxW : Nat) :
    ∀ (ws ch : List Str) (line : Str) (notFirst : Bool),
      (notFirst = false → ch = [] ∧ line = []) →
      (ws ≠ [] → line = trailJoin ch) →
      (ws = [] → line = finJoin ch) →
      (measureW cw line ≤ maxW ∨ ∃ w, ch = [w]) →
      ∃ (parts : List (List Str)) (rest : List Str),
        parts.flatten ++ rest = ch ++ ws ∧
        jsTrim (finJoin rest) = [] ∧
        wrapWordsAux cw maxW ws notFirst line =
          parts.map (fun c => jsTrim (finJoin c)) ∧
        (∀ l ∈ wrapWordsAux cw maxW ws notFirst line, maxW < measureW cw l →
          ∃ w, w ∈ ch ++ ws ∧ l = jsTrim w ∧ maxW < measureW cw w) := by
  intro ws
  induction ws with
  | nil =>
    intro ch line notFirst h1 h2 h3 hgood
    have hline : line = finJoin ch := h3 rfl
    by_cases hz : jsTrim line = []
    · refine ⟨[], ch, by simp, ?_, ?_, ?_⟩
      · rw [← hline]
        exact hz
      · simp [wrapWordsAux, hz]
      · intro l hl
        simp [wrapWordsAux, hz] at hl
    · refine ⟨[ch], [], by simp, by simp [finJoin, jsTrim], ?_, ?_⟩
      · simp only [wrapWordsAux, if_neg hz, List.map_cons, List.map_nil]
        rw [hline]
      · intro l hl hwide
        have hl2 : l = jsTrim line := by
          simpa [wrapWordsAux, hz] using hl
        subst hl2
        rcases hgood with hgle | ⟨w, hw⟩
        · exfalso
          have h5 := measureW_jsTrim_le cw line
          omega
        · have heq2 : jsTrim line = jsTrim w := by
            rw [hline, hw]
            simp [finJoin]
          refine ⟨w, by simp [hw], heq2, ?_⟩
          have h6 := measureW_jsTrim_le cw w
          rw [heq2] at hwide
          omega
  | cons w ws ih =>
    intro ch line notFirst h1 h2 h3 hgood
    have hline : line = trailJoin ch := h2 (by simp)
    by_cases hpush : notFirst = true ∧ maxW < measureW cw (line ++ w ++ sepFor ws)
    · have heq : wrapWordsAux cw maxW (w :: ws) notFirst line =
          jsTrim line :: wrapWordsAux cw maxW ws true (w ++ sepFor ws) := by
        simp only [wrapWordsAux]
        rw [if_pos hpush]
      obtain ⟨parts, rest, hcov, htr, hres, hwid⟩ :=
        ih [w] (w ++ sepFor ws) true
          (fun h => absurd h (by decide))
          (by intro hws
              cases ws with
              | nil => exact absurd rfl hws
              | cons b t => rfl)
          (by intro hws
              subst hws
              simp [sepFor, finJoin])
          (Or.inr ⟨w, rfl⟩)
      refine ⟨ch :: parts, rest, ?_, htr, ?_, ?_⟩
      · rw [List.flatten_cons, List.append_assoc, hcov]
        rfl
      · rw [heq, hres, List.map_cons]
        congr 1
        rw [hline, jsTrim_trailJoin]
      · intro l hl hwide
        rw [heq] at hl
        rcases List.mem_cons.1 hl with hl1 | hl2
        · subst hl1
          rcases hgood with hgle | ⟨w', hw'⟩
          · exfalso
            have h5 := measureW_jsTrim_le cw line
            omega
          · have heq2 : jsTrim line = jsTrim w' := by
              rw [hline, hw', jsTrim_trailJoin]
              simp [finJoin]
            refine ⟨w', by simp [hw'], heq2, ?_⟩
            have h6 := measureW_jsTrim_le cw w'
            rw [heq2] at hwide
            omega
        · obtain ⟨w2, hwmem, hleq, hwwide⟩ := hwid l hl2 hwide
          refine ⟨w2, ?_, hleq, hwwide⟩
          have hmem2 : w2 ∈ w :: ws := by simpa using hwmem
          exact List.mem_append.2 (Or.inr hmem2)
    · have heq : wrapWordsAux cw maxW (w :: ws) notFirst line =
          wrapWordsAux cw maxW ws true (line ++ w ++ sepFor ws) := by
        simp only [wrapWordsAux]
        rw [if_neg hpush]
      have hgood2 : measureW cw (line ++ w ++ sepFor ws) ≤ maxW ∨
          ∃ w0, ch ++ [w] = [w0] := by
        by_cases hle : measureW cw (line ++ w ++ sepFor ws) ≤ maxW
        · exact Or.inl hle
        · have hnf : notFirst = false := by
            cases hnf2 : notFirst with
            | true => exact absurd ⟨hnf2, by omega⟩ hpush
            | false => rfl
          obtain ⟨hch, _⟩ := h1 hnf
          exact Or.inr ⟨w, by rw [hch]; rfl⟩
      obtain ⟨parts, rest, hcov, htr, hres, hwid⟩ :=
        ih (ch ++ [w]) (line ++ w ++ sepFor ws) true
          (fun h => absurd h (by decide))
          (by intro hws
              cases ws with
              | nil => exact absurd rfl hws
              | cons b t =>
                rw [hline, trailJoin_concat]
                rfl)
          (by intro hws
              subst hws
              rw [hline, finJoin_concat]
              simp [sepFor])
          hgood2
      refine ⟨parts, rest, ?_, htr, ?_, ?_⟩
      · rw [hcov, List.append_assoc]
        rfl
      · rw [heq, hres]
      · intro l hl hwide
        rw [heq] at hl
        obtain ⟨w2, hwmem, hleq, hwwide⟩ := hwid l hl hwide
        refine ⟨w2, ?_, hleq, hwwide⟩
        rw [List.append_assoc] at hwmem
        simpa using hwmem

/-- Claim C6: for every additive measure, maximum width and transcript text,
the lines computed by drawWrappedText partition the split words into
consecutive chunks rendered as trimmed space-joined lines (so no word is ever
split across lines and at most a whitespace-only tail of words is dropped);
and any line whose measured width exceeds the maximum is the trim of a single
source word whose own measured width exceeds the maximum, standing on its own
line. -/
theorem drawWrappedText_wrap :
    ∀ (cw : Char → Nat) (maxW : Nat) (text : Str),
      ∃ (parts : List (List Str)) (rest : List Str),
        parts.flatten ++ rest = splitChar ' ' text ∧
        jsTrim (finJoin rest) = [] ∧
        drawWrappedText cw maxW text = parts.map (fun c => jsTrim (finJoin c)) ∧
        (∀ l ∈ drawWrappedText cw maxW text, maxW < measureW cw l →
          ∃ w, w ∈ splitChar ' ' text ∧ l = jsTrim w ∧ maxW < measureW cw w) := by
  intro cw maxW text
  obtain ⟨parts, rest, hcov, htr, hres, hwid⟩ :=
    wrapAux_spec cw maxW (splitChar ' ' text) [] [] false
      (fun _ => ⟨rfl, rfl⟩)
      (fun _ => rfl)
      (fun _ => rfl)
      (Or.inl (by simp [measureW]))
  exact ⟨parts, rest, hcov, htr, hres, hwid⟩

/-- Claim C6 witness: the wrapping specification instantiated at a uniform
10 pixel character width, a 25 pixel maximum and the text ab cdef g. -/
theorem drawWrappedText_wrap_witness :
    ∃ (parts : List (List Str)) (rest : List Str),
      parts.flatten ++ rest = splitChar ' ' ['a', 'b', ' ', 'c', 'd', 'e', 'f', ' ', 'g'] ∧
      jsTrim (finJoin rest) = [] ∧
      drawWrappedText (fun _ => 10) 25 ['a', 'b', ' ', 'c', 'd', 'e', 'f', ' ', 'g'] =
        parts.map (fun c => jsTrim (finJoin c)) ∧
      (∀ l ∈ drawWrappedText (fun _ => 10) 25 ['a', 'b', ' ', 'c', 'd', 'e', 'f', ' ', 'g'],
        25 < measureW (fun _ => 10) l →
        ∃ w, w ∈ splitChar ' ' ['a', 'b', ' ', 'c', 'd', 'e', 'f', ' ', 'g'] ∧
          l = jsTrim w ∧ 25 < measureW (fun _ => 10) w) :=
  drawWrappedText_wrap (fun _ => 10) 25 ['a', 'b', ' ', 'c', 'd', 'e', 'f', ' ', 'g']
